import Mathlib

/-!
Verification of the wordle_helper repository.

The development shallowly embeds the two halves of the application:

* the Rust word-filtering core (`game_logic.rs`); its source is not part of
  the checkout, so the matcher, the filter and the `Word::new` constructor
  are modelled from the specification (spec.md sections 4.1 to 4.3), while
  `convert_letter_state` is transcribed from the snippet reproduced in
  TECH.md;
* the SvelteKit frontend: the zod validation schemas (`CharacterSchema`,
  `LetterSchema`, `WordSchema`, `GuessesSchema` from the types module) and
  the page operations (`handleSubmit`, `deleteGuess`, `addWordAsGuess` from
  `src/routes/+page.svelte`).

JavaScript strings are modelled as `List Char`; state labels are `String`.
External effects (the Tauri `invoke` bridge, alerts, logging) are modelled
by explicit return values and parameters.
-/

namespace WordleHelper

/-- Letter knowledge state, from the backend data model (TECH.md) and the
frontend state labels. -/
inductive LetterState
  | Unknown
  | Correct
  | Misplaced
  | Absent
deriving DecidableEq, Repr

/-- A finalized guess: a word together with the per-position declared
states (spec.md section 3, "Guess (Pattern)"). -/
structure Guess where
  word : List Char
  states : List LetterState
deriving DecidableEq, Repr

/-- Modelled from the spec: phase 1 of the canonical scoring implemented by
the missing `game_logic.rs`. For each position, an exact match
(`guess.word[i] == candidate[i]`) is provisionally marked Correct; other
positions are left unresolved (`none`). -/
def phase1Marks (guessWord candidate : List Char) : List (Option LetterState) :=
  List.zipWith (fun g c => if g = c then some LetterState.Correct else none) guessWord candidate

/-- Modelled from the spec: the per-character remaining-count multiset after
phase 1, for the missing `game_logic.rs`. It starts from all of the
candidate's letters and consumes one occurrence of `candidate[i]` at every
exact-match position. -/
def phase1Pool (guessWord candidate : List Char) : List Char :=
  candidate.enum.filterMap fun p =>
    match guessWord[p.1]? with
    | some g => if g = p.2 then none else some p.2
    | none => some p.2

/-- Modelled from the spec: phase 2 of the canonical scoring for the missing
`game_logic.rs`. Unresolved positions are scanned left to right; a position
whose guess letter still has an unconsumed occurrence in the pool becomes
Misplaced (consuming one occurrence), otherwise Absent. -/
def phase2 : List (Char × Option LetterState) → List Char → List LetterState
  | [], _ => []
  | (_, some s) :: rest, pool => s :: phase2 rest pool
  | (c, none) :: rest, pool =>
      if c ∈ pool then LetterState.Misplaced :: phase2 rest (pool.erase c)
      else LetterState.Absent :: phase2 rest pool

/-- Modelled from the spec: the canonical Wordle feedback that `guessWord`
would receive if played against the secret word `candidate` (spec.md
section 4.2, standing in for the missing `game_logic.rs`). -/
def wordleScore (guessWord candidate : List Char) : List LetterState :=
  phase2 (guessWord.zip (phase1Marks guessWord candidate)) (phase1Pool guessWord candidate)

/-- Modelled from the spec: `Word::matches_pattern` of the missing
`game_logic.rs` (spec.md section 4.2): recompute the canonical feedback and
return true iff it is identical, position by position, to the declared
states of the guess. -/
def matches_pattern (candidate : List Char) (g : Guess) : Bool :=
  decide (wordleScore g.word candidate = g.states)

/-- Modelled from the spec: `filter_words` of the missing `game_logic.rs`
(spec.md section 4.3): keep exactly the dictionary words that satisfy the
matcher against every guess of the history. -/
def filter_words (words : List (List Char)) (patterns : List Guess) : List (List Char) :=
  words.filter fun w => patterns.all fun p => matches_pattern w p

/-- Error kind of the word constructor (spec.md section 7). -/
inductive WordError
  | InvalidWord
deriving DecidableEq, Repr

/-- Modelled from the spec: `Word::new` of the missing backend model module
(spec.md section 4.1, length check as in the TECH.md snippet): a word is
accepted iff it has exactly 5 characters, all alphabetic, and is normalized
to lowercase; otherwise construction fails with `InvalidWord`. -/
def Word.new (word : List Char) : Except WordError (List Char) :=
  if word.length = 5 then
    if word.all Char.isAlpha then Except.ok (word.map Char.toLower)
    else Except.error WordError.InvalidWord
  else Except.error WordError.InvalidWord

/-- Transcribed from the Rust snippet in TECH.md: the backend conversion of
a frontend state label, falling back to `Unknown` for any unrecognized
label. -/
def convert_letter_state (state : String) : LetterState :=
  if state = "correct" then LetterState.Correct
  else if state = "misplaced" then LetterState.Misplaced
  else if state = "absent" then LetterState.Absent
  else LetterState.Unknown

/-- A frontend letter record, as produced and consumed by the UI: a
character string (possibly empty or malformed before validation) and a
state label. -/
structure RawLetter where
  character : List Char
  state : String
deriving DecidableEq, Repr

/-- The four labels of `LetterStateSchema` in the frontend types module. -/
def letterStateLabels : List String := ["unknown", "correct", "misplaced", "absent"]

/-- The frontend `CharacterSchema` (types module): a string, at least 1 and
at most 1 character, refined to a single ASCII letter, then transformed to
lowercase. Returns the parsed (transformed) value on success. -/
def parseCharacter (s : List Char) : Option (List Char) :=
  if s.length < 1 then none
  else if 1 < s.length then none
  else if s.all Char.isAlpha then some (s.map Char.toLower)
  else none

/-- The frontend `LetterStateSchema` (types module): an enum over the four
labels, including the label for the unknown state. -/
def parseState (s : String) : Option String :=
  if s ∈ letterStateLabels then some s else none

/-- The frontend `LetterSchema` (types module): an object with a validated
character and a validated state label. -/
def parseLetter (l : RawLetter) : Option RawLetter :=
  match parseCharacter l.character, parseState l.state with
  | some c, some s => some ⟨c, s⟩
  | _, _ => none

/-- The frontend `WordSchema` (types module): an array of letters, refined
to length 5. -/
def parseWord (w : List RawLetter) : Option (List RawLetter) :=
  match w.mapM parseLetter with
  | some ls => if ls.length = 5 then some ls else none
  | none => none

/-- The frontend `GuessesSchema` (types module): an array of `WordSchema`
words. `none` models a failed `safeParse`; `some` carries `verif.data`. -/
def parseGuesses (gs : List (List RawLetter)) : Option (List (List RawLetter)) :=
  gs.mapM parseWord

/-- The `allFilled` derived state of `+page.svelte`: every letter box of
every guess holds a non-empty character string. -/
def allFilled (guesses : List (List RawLetter)) : Bool :=
  guesses.all fun g => g.all fun l => !(l.character.isEmpty)

/-- The `handleSubmit` handler of `+page.svelte`, as far as the backend
call is concerned. Result `none`: the handler returned early (unfilled
boxes) and `invoke` was not called. Result `some d`: `invoke` was called
with `patterns` equal to `d`, where `d` is `verif.data` of the zod parse
(`none` models the `undefined` data of a failed parse, which the handler
passes on after merely logging the error). -/
def handleSubmit (guesses : List (List RawLetter)) : Option (Option (List (List RawLetter))) :=
  if allFilled guesses then some (parseGuesses guesses) else none

/-- The JavaScript `Array.prototype.sort()` call used by `+page.svelte`,
with the default comparator: lexicographic string order. -/
def sortWords (l : List (List Char)) : List (List Char) :=
  l.mergeSort fun a b => decide (a ≤ b)

/-- The `possibleMatches` update performed by `handleSubmit` in
`+page.svelte`: the filter result returned by the backend, sorted. -/
def handleSubmitPM (possibleWords : List (List Char)) : List (List Char) :=
  sortWords possibleWords

/-- The `possibleMatches` update performed by `deleteGuess` in
`+page.svelte`. Both re-add branches execute the same update, appending the
deleted word and sorting; `readd` abstracts the backend checks deciding
whether the deleted word is re-added, and when no re-add happens the list
is left unchanged. -/
def deleteGuessPM (possibleMatches : List (List Char)) (deletedWord : List Char)
    (readd : Bool) : List (List Char) :=
  if readd then sortWords (possibleMatches ++ [deletedWord]) else possibleMatches

/-- The `correctAtThisPosition` test inside `addWordAsGuess` in
`+page.svelte`: some existing guess has, at this position, the same
lowercased character marked with the correct-state label. Out-of-range
positions (optional chaining in the source) yield false. -/
def correctAtB (guesses : List (List RawLetter)) (position : Nat) (lowerChar : Char) : Bool :=
  guesses.any fun g =>
    match g[position]? with
    | some l => decide (l.character.map Char.toLower = [lowerChar]) && decide (l.state = "correct")
    | none => false

/-- The letter record built by `addWordAsGuess` for one indexed character
of the clicked word. -/
def newGuessLetter (guesses : List (List RawLetter)) (pc : Nat × Char) : RawLetter :=
  if correctAtB guesses pc.1 pc.2.toLower then ⟨[pc.2], "correct"⟩
  else ⟨[pc.2], "absent"⟩

/-- The `addWordAsGuess` handler of `+page.svelte`: with 5 or more guesses
it alerts and changes nothing; otherwise it appends the new guess built
from the clicked word and removes that word from `possibleMatches`,
sorting the result. -/
def addWordAsGuess (word : List Char) (guesses : List (List RawLetter))
    (possibleMatches : List (List Char)) : List (List RawLetter) × List (List Char) :=
  if 5 ≤ guesses.length then (guesses, possibleMatches)
  else (guesses ++ [word.enum.map (newGuessLetter guesses)],
        sortWords (possibleMatches.filter fun m => decide (m ≠ word)))

/-- The clean relational form of `correctAtB`, used to state the
`addWordAsGuess` characterization. -/
def correctAtPos (guesses : List (List RawLetter)) (position : Nat) (lowerChar : Char) : Prop :=
  ∃ g ∈ guesses, ∃ l : RawLetter, g[position]? = some l
    ∧ l.character.map Char.toLower = [lowerChar] ∧ l.state = "correct"

/-- The candidate word of the duplicate-letter test in TECH.md. -/
def paperWord : List Char := "paper".toList

/-- The guess word of the duplicate-letter test in TECH.md. -/
def happyWord : List Char := "happy".toList

/-- The declared states of the duplicate-letter test in TECH.md: h absent,
a correct, p correct, p absent, y absent. -/
def happyDeclared : Guess :=
  ⟨happyWord, [LetterState.Absent, LetterState.Correct, LetterState.Correct,
    LetterState.Absent, LetterState.Absent]⟩

/-- The guess "happy" with the canonical feedback it receives against the
secret word "paper". -/
def happyCanonical : Guess :=
  ⟨happyWord, [LetterState.Absent, LetterState.Correct, LetterState.Correct,
    LetterState.Misplaced, LetterState.Absent]⟩

/-- An unrecognized state label. -/
def bogusLabel : String := "bogus"

/-- The label of the unknown state. -/
def unknownLabel : String := "unknown"

/-- A fully typed guess whose five positions all carry the unknown state. -/
def guessAllUnknown : List RawLetter :=
  [⟨['h'], "unknown"⟩, ⟨['a'], "unknown"⟩, ⟨['p'], "unknown"⟩,
   ⟨['p'], "unknown"⟩, ⟨['y'], "unknown"⟩]

/-- The initial page state of `+page.svelte`: one guess of five empty
letter boxes. -/
def initialGuesses : List (List RawLetter) :=
  [List.replicate 5 ⟨[], "absent"⟩]

/-- A page state whose boxes are all filled but with a non-alphabetic
character, so that the zod parse fails while `allFilled` holds. -/
def filledInvalidGuesses : List (List RawLetter) :=
  [List.replicate 5 ⟨['1'], "absent"⟩]

/-- A page state already holding five guesses. -/
def fiveGuesses : List (List RawLetter) :=
  List.replicate 5 guessAllUnknown

theorem phase2_length (l : List (Char × Option LetterState)) :
    ∀ pool : List Char, (phase2 l pool).length = l.length := by
  induction l with
  | nil => intro pool; rfl
  | cons hd tl ih =>
    intro pool
    obtain ⟨c, m⟩ := hd
    cases m with
    | some s => simp [phase2, ih]
    | none =>
      by_cases h : c ∈ pool
      · simp [phase2, h, ih]
      · simp [phase2, h, ih]

theorem wordleScore_length (gw c : List Char) :
    (wordleScore gw c).length = min gw.length c.length := by
  unfold wordleScore
  rw [phase2_length, List.length_zip]
  unfold phase1Marks
  rw [List.length_zipWith]
  omega

theorem sortWords_sorted (l : List (List Char)) :
    List.Sorted (fun a b : List Char => a ≤ b) (sortWords l) := by
  unfold sortWords
  have h : List.Pairwise (fun a b : List Char => decide (a ≤ b) = true)
      (l.mergeSort fun a b => decide (a ≤ b)) := by
    apply List.sorted_mergeSort
    · intro a b c hab hbc
      exact decide_eq_true (le_trans (of_decide_eq_true hab) (of_decide_eq_true hbc))
    · intro a b
      rw [Bool.or_eq_true, decide_eq_true_eq, decide_eq_true_eq]
      exact le_total a b
  exact h.imp fun hab => of_decide_eq_true hab

theorem mem_sortWords {w : List Char} {l : List (List Char)} :
    w ∈ sortWords l ↔ w ∈ l := by
  unfold sortWords
  exact List.mem_mergeSort

theorem correctAtB_iff (guesses : List (List RawLetter)) (position : Nat) (lowerChar : Char) :
    correctAtB guesses position lowerChar = true ↔ correctAtPos guesses position lowerChar := by
  unfold correctAtB correctAtPos
  rw [List.any_eq_true]
  constructor
  · rintro ⟨g, hg, hfg⟩
    refine ⟨g, hg, ?_⟩
    rcases hgp : g[position]? with _ | l
    · rw [hgp] at hfg
      simp at hfg
    · rw [hgp] at hfg
      simp only [Bool.and_eq_true, decide_eq_true_eq] at hfg
      exact ⟨l, rfl, hfg.1, hfg.2⟩
  · rintro ⟨g, hg, l, hgp, hchar, hstate⟩
    refine ⟨g, hg, ?_⟩
    rw [hgp]
    simp only [Bool.and_eq_true, decide_eq_true_eq]
    exact ⟨hchar, hstate⟩

/-- C1: for every candidate word and finalized guess (all of the fixed
length 5), the matcher returns true if and only if the canonical two-phase
Wordle scoring of the guess word against the candidate yields a state
sequence identical, position by position, to the declared states of the
guess. -/
theorem matches_pattern_canonical (candidate : List Char) (g : Guess)
    (hw : g.word.length = 5) (hc : candidate.length = 5) (hs : g.states.length = 5) :
    matches_pattern candidate g = true ↔
      ∀ i : Fin 5, (wordleScore g.word candidate).get? i.val = g.states.get? i.val := by
  unfold matches_pattern
  rw [decide_eq_true_eq]
  constructor
  · intro h i
    rw [h]
  · intro h
    apply List.ext
    intro n
    by_cases hn : n < 5
    · exact h ⟨n, hn⟩
    · have h1 : (wordleScore g.word candidate).length ≤ n := by
        rw [wordleScore_length, hw, hc]
        omega
      have h2 : g.states.length ≤ n := by
        rw [hs]
        omega
      rw [List.get?_eq_none.mpr h1, List.get?_eq_none.mpr h2]

/-- Witness for C1 at the concrete candidate "paper" and the guess "happy"
carrying its canonical feedback. -/
theorem matches_pattern_canonical_witness :
    matches_pattern paperWord happyCanonical = true ∧
      ∀ i : Fin 5, (wordleScore happyCanonical.word paperWord).get? i.val
        = happyCanonical.states.get? i.val := by
  have h : matches_pattern paperWord happyCanonical = true := by decide
  exact ⟨h, (matches_pattern_canonical paperWord happyCanonical (by decide) (by decide)
    (by decide)).mp h⟩

/-- C2: evaluating the canonical matcher at the repository's own
duplicate-letter test input. The canonical feedback of "happy" against
"paper" is [Absent, Correct, Correct, Misplaced, Absent] (the second p is
Misplaced, since the p of "paper" at position 0 is still unconsumed), so
the declared states [Absent, Correct, Correct, Absent, Absent] of the test
do not match and the canonical matcher returns false, although the
repository's test asserts that `matches_pattern` returns true there. -/
theorem matches_pattern_happy_paper :
    matches_pattern paperWord happyDeclared = false
    ∧ wordleScore happyWord paperWord
      = [LetterState.Absent, LetterState.Correct, LetterState.Correct,
         LetterState.Misplaced, LetterState.Absent] := by
  decide

/-- C3: the conversion boundary does not reject the unknown state. The
frontend `GuessesSchema` accepts a guess all of whose positions carry the
unknown-state label (its element schema is `WordSchema`, whose state enum
includes that label; the stricter final-state schemas defined next to it
are unused), and the backend `convert_letter_state` silently coerces both
the unknown label and any unrecognized label to `Unknown` instead of
erroring. -/
theorem boundary_accepts_unknown :
    parseGuesses [guessAllUnknown] = some [guessAllUnknown]
    ∧ convert_letter_state unknownLabel = LetterState.Unknown
    ∧ convert_letter_state bogusLabel = LetterState.Unknown := by
  decide

/-- C4: filtering any dictionary with an empty guess history returns the
dictionary unchanged. -/
theorem filter_words_empty_history (words : List (List Char)) :
    filter_words words [] = words := by
  unfold filter_words
  simp

/-- C5: appending one more guess to the history never increases the
surviving set: every word surviving the extended history already survives
the original history. -/
theorem filter_words_monotone (D : List (List Char)) (H : List Guess) (g : Guess)
    (w : List Char) (hw : w ∈ filter_words D (H ++ [g])) : w ∈ filter_words D H := by
  unfold filter_words at hw ⊢
  rw [List.mem_filter] at hw ⊢
  refine ⟨hw.1, ?_⟩
  have h2 := hw.2
  rw [List.all_append, Bool.and_eq_true] at h2
  exact h2.1

/-- Witness for C5: "paper" survives the history extended with the
canonical "happy" guess, hence survives the empty history. -/
theorem filter_words_monotone_witness :
    paperWord ∈ filter_words [paperWord] ([] ++ [happyCanonical])
    ∧ paperWord ∈ filter_words [paperWord] [] := by
  have h : paperWord ∈ filter_words [paperWord] ([] ++ [happyCanonical]) := by decide
  exact ⟨h, filter_words_monotone [paperWord] [] happyCanonical paperWord h⟩

/-- C6: word construction succeeds, normalizing to lowercase, if and only
if the input has length exactly 5 and every character is alphabetic;
otherwise it fails with the `InvalidWord` error. -/
theorem word_new_spec (w : List Char) :
    (Word.new w = Except.ok (w.map Char.toLower)
      ↔ w.length = 5 ∧ ∀ c ∈ w, c.isAlpha = true)
    ∧ (¬ (w.length = 5 ∧ ∀ c ∈ w, c.isAlpha = true)
      → Word.new w = Except.error WordError.InvalidWord) := by
  unfold Word.new
  by_cases h5 : w.length = 5
  · by_cases ha : w.all Char.isAlpha
    · rw [if_pos h5, if_pos ha]
      rw [List.all_eq_true] at ha
      constructor
      · exact ⟨fun _ => ⟨h5, ha⟩, fun _ => rfl⟩
      · intro hcon
        exact absurd ⟨h5, ha⟩ hcon
    · rw [if_pos h5, if_neg ha]
      rw [List.all_eq_true] at ha
      constructor
      · constructor
        · intro h
          exact absurd h (by simp)
        · intro h
          exact absurd h.2 ha
      · intro _
        rfl
  · rw [if_neg h5]
    constructor
    · constructor
      · intro h
        exact absurd h (by simp)
      · intro h
        exact absurd h.1 h5
    · intro _
      rfl

/-- Witness for C6: a mixed-case valid word is accepted and lowercased, a
four-letter word is rejected with `InvalidWord`. -/
theorem word_new_spec_witness :
    Word.new ['P', 'a', 'P', 'e', 'r'] = Except.ok (['P', 'a', 'P', 'e', 'r'].map Char.toLower)
    ∧ Word.new ['p', 'a', 'p', 'e'] = Except.error WordError.InvalidWord := by
  constructor
  · exact (word_new_spec ['P', 'a', 'P', 'e', 'r']).1.mpr (by decide)
  · exact (word_new_spec ['p', 'a', 'p', 'e']).2 (by decide)

/-- C7: the per-position character schema of the boundary rejects the empty
string and any string longer than one character, and accepts a single
alphabetic character, normalizing it to lowercase. -/
theorem character_boundary (s : List Char) (c : Char) :
    (s.length = 0 ∨ 1 < s.length → parseCharacter s = none)
    ∧ (c.isAlpha = true → parseCharacter [c] = some [c.toLower]) := by
  constructor
  · intro h
    unfold parseCharacter
    rcases h with h | h
    · rw [if_pos (by omega)]
    · rw [if_neg (by omega), if_pos h]
  · intro h
    unfold parseCharacter
    rw [if_neg (by simp), if_neg (by simp)]
    rw [if_pos (by simp [h])]
    rfl

/-- Witness for C7 at a two-character string and at an uppercase letter. -/
theorem character_boundary_witness :
    parseCharacter ['a', 'b'] = none
    ∧ parseCharacter ['Q'] = some ['Q'.toLower] := by
  constructor
  · exact (character_boundary ['a', 'b'] 'Q').1 (Or.inr (by decide))
  · exact (character_boundary ['a', 'b'] 'Q').2 (by decide)

/-- C8 counterexample: on the initial page state (all letter boxes empty)
the zod parse fails, yet `handleSubmit` returns early at the `allFilled`
check and never calls `invoke`; so it is not the case that every state on
which the parse fails still reaches the filter command. -/
theorem handleSubmit_skips_unfilled :
    parseGuesses initialGuesses = none
    ∧ handleSubmit initialGuesses = none
    ∧ handleSubmit initialGuesses ≠ some none := by
  decide

/-- C8 amended: on every page state that passes the `allFilled` check but
fails the zod parse, `handleSubmit` does not stop after reporting the
error: it still calls `invoke` with `patterns` equal to the undefined data
of the failed parse. -/
theorem handleSubmit_filled_invalid_invokes (gs : List (List RawLetter))
    (hf : allFilled gs = true) (hp : parseGuesses gs = none) :
    handleSubmit gs = some none := by
  unfold handleSubmit
  rw [if_pos hf, hp]

/-- Witness for the amended C8: boxes filled with the digit character pass
`allFilled`, fail the parse, and the filter command is still invoked with
undefined patterns. -/
theorem handleSubmit_filled_invalid_invokes_witness :
    handleSubmit filledInvalidGuesses = some none :=
  handleSubmit_filled_invalid_invokes filledInvalidGuesses (by decide) (by decide)

/-- C9: with five or more guesses, `addWordAsGuess` changes neither the
guesses nor the possible matches; otherwise it appends exactly one guess
whose letter at position p keeps the clicked word's character and carries
the correct-state label iff some existing guess has the same lowercased
character at position p marked correct (and the absent-state label
otherwise), and it removes the clicked word from the possible matches. -/
theorem addWordAsGuess_spec (word : List Char) (guesses : List (List RawLetter))
    (pm : List (List Char)) :
    (5 ≤ guesses.length → addWordAsGuess word guesses pm = (guesses, pm))
    ∧ (guesses.length < 5 →
        ∃ ng : List RawLetter,
          (addWordAsGuess word guesses pm).1 = guesses ++ [ng]
          ∧ ng.length = word.length
          ∧ (∀ p : Nat, ∀ hp : p < word.length, ∃ l : RawLetter,
              ng[p]? = some l
              ∧ l.character = [word[p]]
              ∧ (l.state = "correct" ↔ correctAtPos guesses p (word[p]).toLower)
              ∧ (l.state ≠ "correct" → l.state = "absent"))
          ∧ (∀ w : List Char, w ∈ (addWordAsGuess word guesses pm).2
              ↔ w ∈ pm ∧ w ≠ word)) := by
  constructor
  · intro h5
    unfold addWordAsGuess
    rw [if_pos h5]
  · intro h5
    have hif : ¬ 5 ≤ guesses.length := by omega
    refine ⟨word.enum.map (newGuessLetter guesses), ?_, ?_, ?_, ?_⟩
    · unfold addWordAsGuess
      rw [if_neg hif]
    · rw [List.length_map, List.enum_length]
    · intro p hp
      have he : word.enum[p]? = some (p, word[p]) := by
        rw [List.getElem?_enum, List.getElem?_eq_getElem hp]
        rfl
      have hm : (word.enum.map (newGuessLetter guesses))[p]? =
          some (newGuessLetter guesses (p, word[p])) := by
        rw [List.getElem?_map, he]
        rfl
      by_cases hb : correctAtB guesses p (word[p]).toLower = true
      · refine ⟨⟨[word[p]], "correct"⟩, ?_, rfl, ?_, ?_⟩
        · rw [hm]
          unfold newGuessLetter
          rw [if_pos hb]
        · constructor
          · intro _
            exact (correctAtB_iff guesses p (word[p]).toLower).mp hb
          · intro _
            rfl
        · intro hne
          exact absurd rfl hne
      · refine ⟨⟨[word[p]], "absent"⟩, ?_, rfl, ?_, fun _ => rfl⟩
        · rw [hm]
          unfold newGuessLetter
          rw [if_neg hb]
        · constructor
          · intro h
            have h2 : ("absent" : String) = "correct" := h
            exact absurd h2 (by decide)
          · intro h
            exact absurd ((correctAtB_iff guesses p (word[p]).toLower).mpr h) hb
    · intro w
      unfold addWordAsGuess
      rw [if_neg hif]
      show w ∈ sortWords (pm.filter fun m => decide (m ≠ word)) ↔ _
      rw [mem_sortWords, List.mem_filter]
      simp only [decide_eq_true_eq]

/-- Witness for C9: with five guesses already present, the clicked word
changes nothing. -/
theorem addWordAsGuess_spec_witness :
    addWordAsGuess paperWord fiveGuesses [] = (fiveGuesses, []) :=
  (addWordAsGuess_spec paperWord fiveGuesses []).1 (by decide)

/-- C10: every operation of the page that updates `possibleMatches` leaves
it sorted in ascending lexicographic order: `handleSubmit` sorts the filter
result, `deleteGuess` either leaves the list unchanged or sorts after
re-adding the deleted word, and `addWordAsGuess` either leaves it unchanged
or sorts after removing the clicked word. -/
theorem possibleMatches_sorted (ws pm : List (List Char)) (w word : List Char)
    (readd : Bool) (guesses : List (List RawLetter))
    (h : List.Sorted (fun a b : List Char => a ≤ b) pm) :
    List.Sorted (fun a b : List Char => a ≤ b) (handleSubmitPM ws)
    ∧ List.Sorted (fun a b : List Char => a ≤ b) (deleteGuessPM pm w readd)
    ∧ List.Sorted (fun a b : List Char => a ≤ b) (addWordAsGuess word guesses pm).2 := by
  refine ⟨sortWords_sorted ws, ?_, ?_⟩
  · unfold deleteGuessPM
    cases readd with
    | false => exact h
    | true => exact sortWords_sorted _
  · unfold addWordAsGuess
    by_cases h5 : 5 ≤ guesses.length
    · rw [if_pos h5]
      exact h
    · rw [if_neg h5]
      exact sortWords_sorted _

/-- Witness for C10 at concrete inputs, starting from the empty (hence
sorted) possible-matches list. -/
theorem possibleMatches_sorted_witness :
    List.Sorted (fun a b : List Char => a ≤ b) (handleSubmitPM [paperWord, happyWord])
    ∧ List.Sorted (fun a b : List Char => a ≤ b) (deleteGuessPM [] paperWord true)
    ∧ List.Sorted (fun a b : List Char => a ≤ b) (addWordAsGuess paperWord [] []).2 :=
  possibleMatches_sorted [paperWord, happyWord] [] paperWord paperWord true [] List.sorted_nil

end WordleHelper
